import Mathlib

/-!
Shallow embedding of the `pwdatav3` Go package (ASP.NET-compatible password
hashing): the credential-record data model, its binary codec (both the
high-level `PWHash.MarshalBinary`/`UnmarshalBinary` pair and the low-level
`PWDataV3.pack`/`unpack` pair), the base64 text layer, the constructors and
the verification procedures.

Bytes are modelled as `Nat` values (< 256 for genuine byte data); Go machine
integers are modelled as `Nat`/`Int` with explicit `% 2^32` at the points the
Go source performs a `uint32` conversion.  The external primitives the package
declares as black boxes — PBKDF2-HMAC-SHA256 (`golang.org/x/crypto/pbkdf2`),
the standard-library base64 codec and the cryptographic random source — are
modelled as explicit function parameters, exactly as the spec directs
("treated as black boxes with rigorously specified input/output contracts").
-/

namespace Pwdatav3

/-- `v3 = 1`, the only supported format version byte. -/
def v3 : Nat := 1

/-- `prfSHA256 = 1`, the PRF identifier for HMAC-SHA256. -/
def prfSHA256 : Nat := 1

/-- Default hash iterations used by ASP.NET (`DefaultIter`). -/
def DefaultIter : Nat := 10000

/-- Default salt length used by ASP.NET (`DefaultSaltLen`). -/
def DefaultSaltLen : Nat := 16

/-- `sha256.Size`: the SHA-256 digest length in bytes. -/
def sha256Size : Nat := 32

/-- `hdrLength = 1 + 3*4`: one version byte and three big-endian uint32s. -/
def hdrLength : Nat := 1 + 3 * 4

/-- `binary.BigEndian.PutUint32`: the four big-endian bytes of the low 32 bits
of `x` (the truncation to `uint32` is built into the byte extraction). -/
def putUint32 (x : Nat) : List Nat :=
  [x / 16777216 % 256, x / 65536 % 256, x / 256 % 256, x % 256]

/-- `binary.BigEndian.Uint32 (a[off:])`: the big-endian value of the four
bytes of `a` starting at `off` (out-of-range indices default to 0; all uses
below are guarded by a length check, as in the Go source). -/
def beU32 (a : List Nat) (off : Nat) : Nat :=
  ((a.getD off 0 * 256 + a.getD (off + 1) 0) * 256 + a.getD (off + 2) 0) * 256
    + a.getD (off + 3) 0

/-- Error values of the package: the four exported sentinel errors plus the
`fmt.Errorf`-wrapped diagnostics produced for base64 and random-source
failures. -/
inductive GoErr where
  | corrupt
  | version
  | function
  | parameter
  | wrapped (msg : String)
deriving DecidableEq, Repr

/-- The high-level hashed-value type `PWHash`
(`ver uint8, prf uint32, iter uint32, salt []byte, hash []byte`). -/
structure PWHash where
  ver : Nat
  prf : Nat
  iter : Nat
  salt : List Nat
  hash : List Nat
deriving DecidableEq, Repr

/-- The low-level hashed-value type `PWDataV3`, structurally identical to
`PWHash` (the repository contains both near-duplicate types). -/
structure PWDataV3 where
  ver : Nat
  prf : Nat
  iter : Nat
  salt : List Nat
  hash : List Nat
deriving DecidableEq, Repr

/-- `PWHash.MarshalBinary`: `ver[1], prf[4], iter[4], saltLen[4], salt, hash`,
all uint32s big-endian.  The Go function also returns an always-`nil` error;
the total return type here records that it cannot fail. -/
def PWHash.marshalBinary (pd : PWHash) : List Nat :=
  pd.ver :: (putUint32 pd.prf ++ (putUint32 pd.iter ++
    (putUint32 pd.salt.length ++ (pd.salt ++ pd.hash))))

/-- `PWDataV3.pack`: identical layout to `PWHash.MarshalBinary`. -/
def PWDataV3.pack (d : PWDataV3) : List Nat :=
  d.ver :: (putUint32 d.prf ++ (putUint32 d.iter ++
    (putUint32 d.salt.length ++ (d.salt ++ d.hash))))

/-- `PWHash.UnmarshalBinary`: validates everything before assigning anything
to the receiver; returns the (possibly updated) receiver paired with the
error (`none` = success).  `uint32(len(a))` is `a.length % 2^32`. -/
def PWHash.unmarshalBinary (pd : PWHash) (a : List Nat) : PWHash × Option GoErr :=
  if a.length < hdrLength then (pd, some .corrupt) else
  let ver := a.getD 0 0
  if ver ≠ v3 then (pd, some .version) else
  let prf := beU32 a 1
  if prf ≠ prfSHA256 then (pd, some .function) else
  let iter := beU32 a 5
  if iter < 1 ∨ iter > 100000 then (pd, some .parameter) else
  let saltlen := beU32 a 9
  if saltlen < 1 ∨ saltlen > 64 then (pd, some .parameter) else
  if hdrLength + saltlen + sha256Size ≠ a.length % 4294967296 then (pd, some .corrupt) else
  (({ ver := ver, prf := prf, iter := iter,
      salt := (a.drop hdrLength).take saltlen,
      hash := a.drop (hdrLength + saltlen) } : PWHash), none)

/-- `PWDataV3.unpack`: assigns each field to the receiver as soon as it is
read, *before* the later checks run, so a failing decode can leave the
receiver partially overwritten.  It has no lower bound on `iter` or
`saltlen`, and its final length check only demands at least one byte after
the salt. -/
def PWDataV3.unpack (d : PWDataV3) (a : List Nat) : PWDataV3 × Option GoErr :=
  if a.length < hdrLength then (d, some .corrupt) else
  let d1 : PWDataV3 := { d with ver := a.getD 0 0 }
  if d1.ver ≠ v3 then (d1, some .version) else
  let d2 : PWDataV3 := { d1 with prf := beU32 a 1 }
  if d2.prf ≠ prfSHA256 then (d2, some .function) else
  let d3 : PWDataV3 := { d2 with iter := beU32 a 5 }
  if d3.iter > 100000 then (d3, some .parameter) else
  let saltlen := beU32 a 9
  if saltlen > 64 then (d3, some .parameter) else
  if hdrLength + saltlen ≥ a.length % 4294967296 then (d3, some .corrupt) else
  (({ d3 with salt := (a.drop hdrLength).take saltlen,
              hash := a.drop (hdrLength + saltlen) } : PWDataV3), none)

/-- The zero-valued high-level record (`PWHash{}` in Go). -/
def zeroHash : PWHash := { ver := 0, prf := 0, iter := 0, salt := [], hash := [] }

/-- The zero-valued low-level record (`PWDataV3{}` in Go). -/
def zeroData : PWDataV3 := { ver := 0, prf := 0, iter := 0, salt := [], hash := [] }

/-- A concrete valid high-level record used to instantiate theorems. -/
def sampleHash : PWHash :=
  { ver := 1, prf := 1, iter := 1000, salt := [2, 3], hash := List.replicate 32 7 }

/-- A concrete valid low-level record used to instantiate theorems. -/
def sampleData : PWDataV3 :=
  { ver := 1, prf := 1, iter := 1000, salt := [2, 3], hash := List.replicate 32 7 }

/-- `subtle.ConstantTimeCompare` (Go standard library, fully specified):
returns 1 when the two byte slices have equal length and contents, else 0;
the accumulator `v |= x[i] ^ y[i]` is modelled by the fold, and
`ConstantTimeByteEq(v, 0)` by the final test against 0. -/
def constantTimeCompare (x y : List Nat) : Nat :=
  if x.length ≠ y.length then 0
  else if (List.zipWith Nat.xor x y).foldl Nat.lor 0 = 0 then 1 else 0

/-- `PWHash.Verify`: derive with the record's own salt and iteration count
(`int(pd.iter)` is the exact widening of the stored uint32 value) and compare
in constant time.  `hashPW` is the PBKDF2-HMAC-SHA256 black box
(`password, salt, iter ↦ 32-byte key`). -/
def PWHash.verify (hashPW : String → List Nat → Int → List Nat)
    (pd : PWHash) (pw : String) : Bool :=
  let dk := hashPW pw pd.salt (pd.iter : Int)
  constantTimeCompare pd.hash dk = 1

/-- `PWDataV3.VerifyPassword`: same body as `PWHash.Verify`. -/
def PWDataV3.verifyPassword (hashPW : String → List Nat → Int → List Nat)
    (d : PWDataV3) (pw : String) : Bool :=
  let dk := hashPW pw d.salt (d.iter : Int)
  constantTimeCompare d.hash dk = 1

/-- `New` (the `PWHash` password constructor): asks the random source for
`DefaultSaltLen` bytes (`rand` is the outcome of that read), fails only when
the source does, otherwise builds the record with `ver = v3`, `prf =
prfSHA256`, `iter` truncated to uint32, and the PBKDF2 subkey. -/
def PWHash.new (hashPW : String → List Nat → Int → List Nat)
    (rand : Except String (List Nat)) (pw : String) (iter : Int) :
    Except GoErr PWHash :=
  match rand with
  | .error e => .error (.wrapped ("cannot make salt value: " ++ e))
  | .ok salt =>
      .ok { ver := v3, prf := prfSHA256, iter := (iter % 4294967296).toNat,
            salt := salt, hash := hashPW pw salt iter }

/-- `NewFromPassword` (the `PWDataV3` password constructor): identical
behavior to `PWHash.new` up to the record type. -/
def NewFromPassword (hashPW : String → List Nat → Int → List Nat)
    (rand : Except String (List Nat)) (pw : String) (iter : Int) :
    Except GoErr PWDataV3 :=
  match rand with
  | .error e => .error (.wrapped ("cannot make salt value: " ++ e))
  | .ok salt =>
      let dk := hashPW pw salt iter
      .ok { ver := v3, prf := prfSHA256, iter := (iter % 4294967296).toNat,
            salt := salt, hash := dk }

/-- `Must`: panics when its argument carries an error.  The panic is modelled
as `none`; a normal return is `some`. -/
def Must (x : Except GoErr PWDataV3) : Option PWDataV3 :=
  match x with
  | .error _ => none
  | .ok pw => some pw

/-- `fromBase64`: base64-decode (the standard-library decoder `b64` is a
black-box parameter: `ok` yields the decoded bytes, `error` the diagnostic
text), wrapping a base64 failure as `fmt.Errorf("pw data: %v", err)`, then
`unpack` into a zero-valued record. -/
def fromBase64 (b64 : String → Except String (List Nat)) (s : String) :
    Except GoErr PWDataV3 :=
  match b64 s with
  | .error e => .error (.wrapped ("pw data: " ++ e))
  | .ok out =>
      match PWDataV3.unpack zeroData out with
      | (_, some err) => .error err
      | (pwd, none) => .ok pwd

/-- `PWHash.UnmarshalText`: base64-decode the text (failure wrapped as
`fmt.Errorf("password encoding: %v", err)`), then `UnmarshalBinary` the
decoded bytes into the receiver. -/
def PWHash.unmarshalText (b64 : String → Except String (List Nat))
    (pd : PWHash) (text : String) : PWHash × Option GoErr :=
  match b64 text with
  | .error e => (pd, some (.wrapped ("password encoding: " ++ e)))
  | .ok out => pd.unmarshalBinary out

/-- `VerifyHash`: decode the stored base64 value; on failure construct a
dummy credential from the empty password (`Must` panicking — `none` — when
the random source fails) and return `(ConstantTimeCompare(d.hash, d.hash) !=
1, err)`; on success return the constant-time comparison against the freshly
derived key.  The overall `Option` is `none` exactly when the Go code
panics. -/
def VerifyHash (hashPW : String → List Nat → Int → List Nat)
    (b64 : String → Except String (List Nat))
    (rand : Except String (List Nat)) (hash pw : String) :
    Option (Bool × Option GoErr) :=
  match fromBase64 b64 hash with
  | .error err =>
      match Must (NewFromPassword hashPW rand "" (DefaultIter : Int)) with
      | none => none
      | some d => some (decide (constantTimeCompare d.hash d.hash ≠ 1), some err)
  | .ok d =>
      let dk := hashPW pw d.salt (d.iter : Int)
      some (decide (constantTimeCompare d.hash dk = 1), none)

/-- Validity of a credential record, as claim C1 states it: version 1, PRF 1,
iterations in [1,100000], salt length in [1,64], 32-byte subkey. -/
def PWHash.valid (r : PWHash) : Prop :=
  r.ver = v3 ∧ r.prf = prfSHA256 ∧ 1 ≤ r.iter ∧ r.iter ≤ 100000 ∧
  1 ≤ r.salt.length ∧ r.salt.length ≤ 64 ∧ r.hash.length = sha256Size

instance (r : PWHash) : Decidable r.valid := by
  unfold PWHash.valid; infer_instance

/-- Validity of a low-level record, same constraints as `PWHash.valid`. -/
def PWDataV3.valid (r : PWDataV3) : Prop :=
  r.ver = v3 ∧ r.prf = prfSHA256 ∧ 1 ≤ r.iter ∧ r.iter ≤ 100000 ∧
  1 ≤ r.salt.length ∧ r.salt.length ≤ 64 ∧ r.hash.length = sha256Size

instance (r : PWDataV3) : Decidable r.valid := by
  unfold PWDataV3.valid; infer_instance

/-! ### Helper lemmas about the byte-level primitives -/

/-- Reading back the four big-endian bytes of `x` yields `x % 2^32`. -/
theorem beU32_putUint32 (x : Nat) :
    ((x / 16777216 % 256 * 256 + x / 65536 % 256) * 256 + x / 256 % 256) * 256
      + x % 256 = x % 4294967296 := by
  omega

/-- Writing back the big-endian value of four bytes yields the same bytes. -/
theorem putUint32_beU32 (b0 b1 b2 b3 : Nat)
    (h0 : b0 < 256) (h1 : b1 < 256) (h2 : b2 < 256) (h3 : b3 < 256) :
    putUint32 (((b0 * 256 + b1) * 256 + b2) * 256 + b3) = [b0, b1, b2, b3] := by
  simp only [putUint32, List.cons.injEq, and_true]
  refine ⟨by omega, by omega, by omega, by omega⟩

/-- The wire image of a record is 13 bytes of header plus salt plus subkey. -/
theorem marshal_length (v p i : Nat) (s hs : List Nat) :
    (v :: (putUint32 p ++ (putUint32 i ++ (putUint32 s.length ++ (s ++ hs))))).length
      = hdrLength + s.length + hs.length := by
  simp [putUint32, hdrLength]
  omega

/-- Byte 0 of the wire image is the version byte. -/
theorem marshal_getD0 (v p i : Nat) (s hs : List Nat) :
    (v :: (putUint32 p ++ (putUint32 i ++ (putUint32 s.length ++ (s ++ hs))))).getD 0 0
      = v := rfl

/-- Bytes 1–4 of the wire image decode big-endian to `p % 2^32`. -/
theorem marshal_beU32_1 (v p i : Nat) (s hs : List Nat) :
    beU32 (v :: (putUint32 p ++ (putUint32 i ++ (putUint32 s.length ++ (s ++ hs))))) 1
      = p % 4294967296 := by
  show ((p / 16777216 % 256 * 256 + p / 65536 % 256) * 256 + p / 256 % 256) * 256
      + p % 256 = p % 4294967296
  omega

/-- Bytes 5–8 of the wire image decode big-endian to `i % 2^32`. -/
theorem marshal_beU32_5 (v p i : Nat) (s hs : List Nat) :
    beU32 (v :: (putUint32 p ++ (putUint32 i ++ (putUint32 s.length ++ (s ++ hs))))) 5
      = i % 4294967296 := by
  show ((i / 16777216 % 256 * 256 + i / 65536 % 256) * 256 + i / 256 % 256) * 256
      + i % 256 = i % 4294967296
  omega

/-- Bytes 9–12 of the wire image decode big-endian to the salt length. -/
theorem marshal_beU32_9 (v p i : Nat) (s hs : List Nat) :
    beU32 (v :: (putUint32 p ++ (putUint32 i ++ (putUint32 s.length ++ (s ++ hs))))) 9
      = s.length % 4294967296 := by
  show ((s.length / 16777216 % 256 * 256 + s.length / 65536 % 256) * 256
      + s.length / 256 % 256) * 256 + s.length % 256 = s.length % 4294967296
  omega

/-- Bytes 13 onward of the wire image are the salt followed by the subkey. -/
theorem marshal_drop13 (v p i : Nat) (s hs : List Nat) :
    (v :: (putUint32 p ++ (putUint32 i ++ (putUint32 s.length ++ (s ++ hs))))).drop 13
      = s ++ hs := rfl

/-- A bitwise or of naturals is zero exactly when both sides are. -/
theorem lor_eq_zero_iff (a b : Nat) : Nat.lor a b = 0 ↔ a = 0 ∧ b = 0 := by
  constructor
  · intro h
    have h' : a ||| b = 0 := h
    have key : ∀ i, Nat.testBit a i = false ∧ Nat.testBit b i = false := by
      intro i
      have hb := congrArg (fun n => Nat.testBit n i) h'
      simp only [Nat.testBit_or, Nat.zero_testBit] at hb
      exact Bool.or_eq_false_iff.mp hb
    refine ⟨Nat.eq_of_testBit_eq fun i => ?_, Nat.eq_of_testBit_eq fun i => ?_⟩
    · simp only [Nat.zero_testBit]; exact (key i).1
    · simp only [Nat.zero_testBit]; exact (key i).2
  · rintro ⟨rfl, rfl⟩
    rfl

/-- The accumulator loop `v |= z` over a list ends at zero exactly when the
accumulator started at zero and every element is zero. -/
theorem foldl_lor_eq_zero_iff (l : List Nat) (acc : Nat) :
    l.foldl Nat.lor acc = 0 ↔ acc = 0 ∧ ∀ z ∈ l, z = 0 := by
  induction l generalizing acc with
  | nil => simp
  | cons a l ih =>
    simp only [List.foldl_cons, ih, lor_eq_zero_iff, List.mem_cons]
    constructor
    · rintro ⟨⟨h1, h2⟩, h3⟩
      exact ⟨h1, fun z hz => hz.elim (fun e => e ▸ h2) (h3 z)⟩
    · rintro ⟨h1, h2⟩
      exact ⟨⟨h1, h2 a (.inl rfl)⟩, fun z hz => h2 z (.inr hz)⟩

/-- For equal-length byte lists, all pairwise xors vanish exactly when the
lists are equal. -/
theorem zipWith_xor_all_zero_iff (x : List Nat) :
    ∀ (y : List Nat), x.length = y.length →
      ((∀ z ∈ List.zipWith Nat.xor x y, z = 0) ↔ x = y) := by
  induction x with
  | nil =>
    intro y hl
    cases y with
    | nil => simp
    | cons b y => simp at hl
  | cons a x ih =>
    intro y hl
    cases y with
    | nil => simp at hl
    | cons b y =>
      simp only [List.zipWith_cons_cons, List.mem_cons, List.cons.injEq]
      simp only [List.length_cons, Nat.add_right_cancel_iff] at hl
      constructor
      · intro h
        refine ⟨Nat.xor_eq_zero.mp (h _ (.inl rfl)), ?_⟩
        exact (ih y hl).mp fun z hz => h z (.inr hz)
      · rintro ⟨h1, h2⟩
        subst h1
        subst h2
        intro z hz
        rcases hz with hz | hz
        · exact hz.trans (Nat.xor_self a)
        · exact ((ih _ rfl).mpr rfl) z hz

/-- `subtle.ConstantTimeCompare` returns 1 exactly on equal byte lists. -/
theorem constantTimeCompare_eq_one_iff (x y : List Nat) :
    constantTimeCompare x y = 1 ↔ x = y := by
  unfold constantTimeCompare
  by_cases hl : x.length = y.length
  · rw [if_neg (not_ne_iff.mpr hl)]
    by_cases hz : (List.zipWith Nat.xor x y).foldl Nat.lor 0 = 0
    · rw [if_pos hz]
      have h0 := (foldl_lor_eq_zero_iff _ 0).mp hz
      exact ⟨fun _ => (zipWith_xor_all_zero_iff x y hl).mp h0.2, fun _ => rfl⟩
    · rw [if_neg hz]
      constructor
      · intro h; exact absurd h (by omega)
      · rintro rfl
        exact absurd ((foldl_lor_eq_zero_iff _ 0).mpr
          ⟨rfl, (zipWith_xor_all_zero_iff x x rfl).mpr rfl⟩) hz
  · rw [if_pos hl]
    constructor
    · intro h; exact absurd h (by omega)
    · rintro rfl; exact absurd rfl hl

/-! ### Round-trip lemmas for the two binary codecs -/

/-- Decoding the high-level encoding of a valid record succeeds and returns
that record, whatever the receiver held before. -/
theorem unmarshalBinary_marshalBinary (pd r : PWHash) (h : r.valid) :
    pd.unmarshalBinary r.marshalBinary = (r, none) := by
  obtain ⟨rv, rp, ri, rs, rh⟩ := r
  obtain ⟨hv, hp, hi1, hi2, hs1, hs2, hh⟩ := h
  simp only [v3, prfSHA256, sha256Size] at hv hp hh
  dsimp only at hv hp hi1 hi2 hs1 hs2 hh
  subst hv
  subst hp
  unfold PWHash.unmarshalBinary PWHash.marshalBinary
  simp only [marshal_length, marshal_getD0, marshal_beU32_1, marshal_beU32_5,
    marshal_beU32_9, marshal_drop13, hdrLength, v3, prfSHA256, sha256Size]
  rw [if_neg (by omega)]
  rw [if_neg (by omega)]
  rw [if_neg (by norm_num)]
  rw [if_neg (by omega)]
  rw [if_neg (by omega)]
  rw [if_neg (by omega)]
  simp only [Prod.mk.injEq, PWHash.mk.injEq, and_true]
  refine ⟨trivial, trivial, by omega, ?_, ?_⟩
  · rw [Nat.mod_eq_of_lt (by omega)]
    exact List.take_left rs rh
  · rw [Nat.mod_eq_of_lt (show rs.length < 4294967296 by omega)]
    rw [← List.drop_drop]
    rw [show (1 : Nat) + 3 * 4 = 13 from rfl, marshal_drop13]
    exact List.drop_left rs rh

/-- Decoding the low-level encoding of a valid record also succeeds and
returns that record (every field of the receiver is overwritten). -/
theorem unpack_pack (d r : PWDataV3) (h : r.valid) :
    d.unpack r.pack = (r, none) := by
  obtain ⟨rv, rp, ri, rs, rh⟩ := r
  obtain ⟨hv, hp, hi1, hi2, hs1, hs2, hh⟩ := h
  simp only [v3, prfSHA256, sha256Size] at hv hp hh
  dsimp only at hv hp hi1 hi2 hs1 hs2 hh
  subst hv
  subst hp
  unfold PWDataV3.unpack PWDataV3.pack
  simp only [marshal_length, marshal_getD0, marshal_beU32_1, marshal_beU32_5,
    marshal_beU32_9, marshal_drop13, hdrLength, v3, prfSHA256, sha256Size]
  rw [if_neg (by omega)]
  rw [if_neg (by norm_num)]
  rw [if_neg (by norm_num)]
  rw [if_neg (by omega)]
  rw [if_neg (by omega)]
  rw [if_neg (by omega)]
  simp only [Prod.mk.injEq, PWDataV3.mk.injEq, and_true]
  refine ⟨trivial, trivial, by omega, ?_, ?_⟩
  · rw [Nat.mod_eq_of_lt (show rs.length < 4294967296 by omega)]
    exact List.take_left rs rh
  · rw [Nat.mod_eq_of_lt (show rs.length < 4294967296 by omega)]
    rw [← List.drop_drop]
    rw [show (1 : Nat) + 3 * 4 = 13 from rfl, marshal_drop13]
    exact List.drop_left rs rh

/-- In-range defaulted indexing into a list of bytes yields a byte. -/
theorem getD_lt_256 (a : List Nat) (hB : ∀ x ∈ a, x < 256) (j : Nat)
    (hj : j < a.length) : a.getD j 0 < 256 := by
  rw [List.getD_eq_getElem a 0 hj]
  exact hB _ (List.getElem_mem hj)

/-- A list of length at least 13 is its first 13 defaulted entries followed
by its tail from index 13. -/
theorem take13_getD (a : List Nat) (h : 13 ≤ a.length) :
    a = a.getD 0 0 :: a.getD 1 0 :: a.getD 2 0 :: a.getD 3 0 :: a.getD 4 0 ::
        a.getD 5 0 :: a.getD 6 0 :: a.getD 7 0 :: a.getD 8 0 :: a.getD 9 0 ::
        a.getD 10 0 :: a.getD 11 0 :: a.getD 12 0 :: a.drop 13 := by
  obtain _ | ⟨x0, _ | ⟨x1, _ | ⟨x2, _ | ⟨x3, _ | ⟨x4, _ | ⟨x5, _ | ⟨x6, _ |
    ⟨x7, _ | ⟨x8, _ | ⟨x9, _ | ⟨x10, _ | ⟨x11, _ | ⟨x12, rest⟩⟩⟩⟩⟩⟩⟩⟩⟩⟩⟩⟩⟩ := a
  all_goals simp_all

/-- A successful high-level decode re-encodes byte-for-byte to its input. -/
theorem marshalBinary_unmarshalBinary (pd r : PWHash) (a : List Nat)
    (hB : ∀ x ∈ a, x < 256) (h : pd.unmarshalBinary a = (r, none)) :
    r.marshalBinary = a := by
  unfold PWHash.unmarshalBinary at h
  simp only [hdrLength, v3, prfSHA256, sha256Size] at h
  split_ifs at h with h1 h2 h3 h4 h5 h6
  · simp at h
  · simp at h
  · simp at h
  · simp at h
  · simp at h
  · simp at h
  rw [Prod.mk.injEq] at h
  obtain ⟨h7, -⟩ := h
  subst h7
  push_neg at h2 h3 h4 h5 h6
  have hlen13 : 13 ≤ a.length := by omega
  have hmod : a.length % 4294967296 ≤ a.length := Nat.mod_le _ _
  have hsl64 : beU32 a 9 ≤ 64 := h5.2
  have hsalt_le : 13 + beU32 a 9 + 32 ≤ a.length := by omega
  unfold PWHash.marshalBinary
  dsimp only
  have htl : ((a.drop 13).take (beU32 a 9)).length = beU32 a 9 := by
    rw [List.length_take, List.length_drop]
    omega
  rw [htl]
  have htail : (a.drop 13).take (beU32 a 9) ++ a.drop (13 + beU32 a 9)
      = a.drop 13 := by
    rw [← List.drop_drop]
    exact List.take_append_drop _ _
  rw [htail]
  have e1 : putUint32 (beU32 a 1)
      = [a.getD 1 0, a.getD 2 0, a.getD 3 0, a.getD 4 0] := by
    have e : beU32 a 1 = ((a.getD 1 0 * 256 + a.getD 2 0) * 256 + a.getD 3 0)
        * 256 + a.getD 4 0 := rfl
    rw [e]
    exact putUint32_beU32 _ _ _ _ (getD_lt_256 a hB 1 (by omega))
      (getD_lt_256 a hB 2 (by omega)) (getD_lt_256 a hB 3 (by omega))
      (getD_lt_256 a hB 4 (by omega))
  have e2 : putUint32 (beU32 a 5)
      = [a.getD 5 0, a.getD 6 0, a.getD 7 0, a.getD 8 0] := by
    have e : beU32 a 5 = ((a.getD 5 0 * 256 + a.getD 6 0) * 256 + a.getD 7 0)
        * 256 + a.getD 8 0 := rfl
    rw [e]
    exact putUint32_beU32 _ _ _ _ (getD_lt_256 a hB 5 (by omega))
      (getD_lt_256 a hB 6 (by omega)) (getD_lt_256 a hB 7 (by omega))
      (getD_lt_256 a hB 8 (by omega))
  have e3 : putUint32 (beU32 a 9)
      = [a.getD 9 0, a.getD 10 0, a.getD 11 0, a.getD 12 0] := by
    have e : beU32 a 9 = ((a.getD 9 0 * 256 + a.getD 10 0) * 256 + a.getD 11 0)
        * 256 + a.getD 12 0 := rfl
    rw [e]
    exact putUint32_beU32 _ _ _ _ (getD_lt_256 a hB 9 (by omega))
      (getD_lt_256 a hB 10 (by omega)) (getD_lt_256 a hB 11 (by omega))
      (getD_lt_256 a hB 12 (by omega))
  rw [e1, e2, e3]
  conv_rhs => rw [take13_getD a hlen13]
  simp

/-- A successful low-level decode also re-encodes byte-for-byte to its
input: the whole tail after the salt is stored as the subkey, whatever its
length, so `pack` reproduces it. -/
theorem pack_unpack (d r : PWDataV3) (a : List Nat)
    (hB : ∀ x ∈ a, x < 256) (h : d.unpack a = (r, none)) :
    r.pack = a := by
  unfold PWDataV3.unpack at h
  simp only [hdrLength, v3, prfSHA256, sha256Size] at h
  split_ifs at h with h1 h2 h3 h4 h5 h6
  · simp at h
  · simp at h
  · simp at h
  · simp at h
  · simp at h
  · simp at h
  rw [Prod.mk.injEq] at h
  obtain ⟨h7, -⟩ := h
  subst h7
  push_neg at h2 h3 h6
  have hlen13 : 13 ≤ a.length := by omega
  have hmod : a.length % 4294967296 ≤ a.length := Nat.mod_le _ _
  have hsalt_le : 13 + beU32 a 9 < a.length := by omega
  unfold PWDataV3.pack
  dsimp only
  have htl : ((a.drop 13).take (beU32 a 9)).length = beU32 a 9 := by
    rw [List.length_take, List.length_drop]
    omega
  rw [htl]
  have htail : (a.drop 13).take (beU32 a 9) ++ a.drop (13 + beU32 a 9)
      = a.drop 13 := by
    rw [← List.drop_drop]
    exact List.take_append_drop _ _
  rw [htail]
  have e1 : putUint32 (beU32 a 1)
      = [a.getD 1 0, a.getD 2 0, a.getD 3 0, a.getD 4 0] := by
    have e : beU32 a 1 = ((a.getD 1 0 * 256 + a.getD 2 0) * 256 + a.getD 3 0)
        * 256 + a.getD 4 0 := rfl
    rw [e]
    exact putUint32_beU32 _ _ _ _ (getD_lt_256 a hB 1 (by omega))
      (getD_lt_256 a hB 2 (by omega)) (getD_lt_256 a hB 3 (by omega))
      (getD_lt_256 a hB 4 (by omega))
  have e2 : putUint32 (beU32 a 5)
      = [a.getD 5 0, a.getD 6 0, a.getD 7 0, a.getD 8 0] := by
    have e : beU32 a 5 = ((a.getD 5 0 * 256 + a.getD 6 0) * 256 + a.getD 7 0)
        * 256 + a.getD 8 0 := rfl
    rw [e]
    exact putUint32_beU32 _ _ _ _ (getD_lt_256 a hB 5 (by omega))
      (getD_lt_256 a hB 6 (by omega)) (getD_lt_256 a hB 7 (by omega))
      (getD_lt_256 a hB 8 (by omega))
  have e3 : putUint32 (beU32 a 9)
      = [a.getD 9 0, a.getD 10 0, a.getD 11 0, a.getD 12 0] := by
    have e : beU32 a 9 = ((a.getD 9 0 * 256 + a.getD 10 0) * 256 + a.getD 11 0)
        * 256 + a.getD 12 0 := rfl
    rw [e]
    exact putUint32_beU32 _ _ _ _ (getD_lt_256 a hB 9 (by omega))
      (getD_lt_256 a hB 10 (by omega)) (getD_lt_256 a hB 11 (by omega))
      (getD_lt_256 a hB 12 (by omega))
  rw [e1, e2, e3]
  conv_rhs => rw [take13_getD a hlen13]
  simp

/-! ### Claim C1 -/

/-- C1: Round-trip of the binary codec.  For every valid credential record
(version 1, prf 1, iterations in [1,100000], salt length in [1,64], 32-byte
subkey), decoding the binary encoding succeeds and yields an equal record;
and for every byte sequence on which binary decode succeeds, re-encoding the
decoded record reproduces the input byte-for-byte.  Both hold for the
high-level codec (`MarshalBinary`/`UnmarshalBinary`) and for the low-level
one (`pack`/`unpack`). -/
theorem C1_binary_roundtrip :
    (∀ (pd r : PWHash), r.valid →
        pd.unmarshalBinary r.marshalBinary = (r, none)) ∧
    (∀ (pd r : PWHash) (b : List Nat), (∀ x ∈ b, x < 256) →
        pd.unmarshalBinary b = (r, none) → r.marshalBinary = b) ∧
    (∀ (d r : PWDataV3), r.valid → d.unpack r.pack = (r, none)) ∧
    (∀ (d r : PWDataV3) (b : List Nat), (∀ x ∈ b, x < 256) →
        d.unpack b = (r, none) → r.pack = b) :=
  ⟨unmarshalBinary_marshalBinary, marshalBinary_unmarshalBinary,
   unpack_pack, pack_unpack⟩

/-- C1 witness: the round-trip theorem applied to a concrete valid record. -/
theorem C1_binary_roundtrip_witness :
    sampleHash.valid ∧ sampleData.valid ∧
    (∀ x ∈ sampleHash.marshalBinary, x < 256) ∧
    zeroHash.unmarshalBinary sampleHash.marshalBinary = (sampleHash, none) ∧
    zeroData.unpack sampleData.pack = (sampleData, none) ∧
    sampleHash.marshalBinary = sampleHash.marshalBinary ∧
    sampleData.pack = sampleData.pack :=
  ⟨by decide, by decide, by decide,
   C1_binary_roundtrip.1 zeroHash sampleHash (by decide),
   C1_binary_roundtrip.2.2.1 zeroData sampleData (by decide),
   C1_binary_roundtrip.2.1 zeroHash sampleHash sampleHash.marshalBinary
     (by decide) (C1_binary_roundtrip.1 zeroHash sampleHash (by decide)),
   C1_binary_roundtrip.2.2.2 zeroData sampleData sampleData.pack
     (by decide) (C1_binary_roundtrip.2.2.1 zeroData sampleData (by decide))⟩

/-! ### Claim C2 -/

/-- C2 counterexample: a 16-byte input whose header passes every check
(version 1, prf 1, iterations 1, salt length 1) and whose total length 16 is
not 13 + 1 + 32 = 46, yet the low-level binary decode `unpack` succeeds
instead of failing with the Corrupt error — the subkey after the salt is 2
bytes, not 32. -/
theorem C2_counterexample :
    (zeroData.unpack [1, 0, 0, 0, 1, 0, 0, 0, 1, 0, 0, 0, 1, 238, 1, 2]).2 = none ∧
    beU32 [1, 0, 0, 0, 1, 0, 0, 0, 1, 0, 0, 0, 1, 238, 1, 2] 5 = 1 ∧
    beU32 [1, 0, 0, 0, 1, 0, 0, 0, 1, 0, 0, 0, 1, 238, 1, 2] 9 = 1 ∧
    ([1, 0, 0, 0, 1, 0, 0, 0, 1, 0, 0, 0, 1, 238, 1, 2] : List Nat).length ≠
      hdrLength + 1 + sha256Size := by
  decide

/-- C2 (amended): after the header checks pass, the high-level decode
`UnmarshalBinary` fails with Corrupt exactly when the total length reduced
mod 2^32 (the code compares `uint32` values) differs from
13 + saltLength + 32, and succeeds otherwise; the low-level `unpack` instead
fails with Corrupt exactly when the length mod 2^32 is at most
13 + saltLength, accepting any input with at least one byte of subkey. -/
theorem C2_corrupt_length_check :
    (∀ (pd : PWHash) (a : List Nat),
      hdrLength ≤ a.length → a.getD 0 0 = v3 → beU32 a 1 = prfSHA256 →
      1 ≤ beU32 a 5 → beU32 a 5 ≤ 100000 → 1 ≤ beU32 a 9 → beU32 a 9 ≤ 64 →
      ((pd.unmarshalBinary a).2 = some .corrupt ↔
        hdrLength + beU32 a 9 + sha256Size ≠ a.length % 4294967296) ∧
      ((pd.unmarshalBinary a).2 = none ↔
        hdrLength + beU32 a 9 + sha256Size = a.length % 4294967296)) ∧
    (∀ (d : PWDataV3) (a : List Nat),
      hdrLength ≤ a.length → a.getD 0 0 = v3 → beU32 a 1 = prfSHA256 →
      beU32 a 5 ≤ 100000 → beU32 a 9 ≤ 64 →
      ((d.unpack a).2 = some .corrupt ↔
        a.length % 4294967296 ≤ hdrLength + beU32 a 9) ∧
      ((d.unpack a).2 = none ↔
        hdrLength + beU32 a 9 < a.length % 4294967296)) := by
  constructor
  · intro pd a hlen hver hprf hi1 hi2 hs1 hs2
    unfold PWHash.unmarshalBinary
    simp only [hdrLength, v3, prfSHA256, sha256Size] at *
    rw [if_neg (by omega), if_neg (by omega), if_neg (by omega),
      if_neg (by omega), if_neg (by omega)]
    by_cases hc : 1 + 3 * 4 + beU32 a 9 + 32 ≠ a.length % 4294967296
    · rw [if_pos hc]
      constructor
      · simpa using hc
      · simp only []
        constructor
        · intro hfalse; simp at hfalse
        · intro heq; exact absurd heq hc
    · rw [if_neg hc]
      push_neg at hc
      constructor
      · simp only []
        constructor
        · intro hfalse; simp at hfalse
        · intro hne; exact absurd hc hne
      · simpa using hc
  · intro d a hlen hver hprf hi2 hs2
    unfold PWDataV3.unpack
    simp only [hdrLength, v3, prfSHA256, sha256Size] at *
    rw [if_neg (by omega), if_neg (by omega), if_neg (by omega),
      if_neg (by omega), if_neg (by omega)]
    by_cases hc : 1 + 3 * 4 + beU32 a 9 ≥ a.length % 4294967296
    · rw [if_pos hc]
      constructor
      · simpa using hc
      · simp only []
        constructor
        · intro hfalse; simp at hfalse
        · intro hlt; omega
    · rw [if_neg hc]
      push_neg at hc
      constructor
      · simp only []
        constructor
        · intro hfalse; simp at hfalse
        · intro hle; omega
      · simpa using hc

/-- C2 witness: the amended theorem instantiated on a concrete 46-byte valid
encoding (exact length, accepted) and on the concrete 16-byte counterexample
input (short subkey: rejected by the high-level decoder, accepted by the
low-level one). -/
theorem C2_corrupt_length_check_witness :
    ((zeroHash.unmarshalBinary sampleHash.marshalBinary).2 = none ∧
      (zeroHash.unmarshalBinary
        [1, 0, 0, 0, 1, 0, 0, 0, 1, 0, 0, 0, 1, 238, 1, 2]).2 = some .corrupt) ∧
    (zeroData.unpack [1, 0, 0, 0, 1, 0, 0, 0, 1, 0, 0, 0, 1, 238, 1, 2]).2 = none := by
  refine ⟨⟨?_, ?_⟩, ?_⟩
  · exact ((C2_corrupt_length_check.1 zeroHash sampleHash.marshalBinary
      (by decide) (by decide) (by decide) (by decide) (by decide) (by decide)
      (by decide)).2).mpr (by decide)
  · exact ((C2_corrupt_length_check.1 zeroHash
      [1, 0, 0, 0, 1, 0, 0, 0, 1, 0, 0, 0, 1, 238, 1, 2]
      (by decide) (by decide) (by decide) (by decide) (by decide) (by decide)
      (by decide)).1).mpr (by decide)
  · exact ((C2_corrupt_length_check.2 zeroData
      [1, 0, 0, 0, 1, 0, 0, 0, 1, 0, 0, 0, 1, 238, 1, 2]
      (by decide) (by decide) (by decide) (by decide) (by decide)).2).mpr
      (by decide)

/-! ### Claim C3 -/

/-- C3 counterexample: a 15-byte input with version 1, prf 1, iteration
count 0 and salt length 1; the claim requires the Parameter error, but the
low-level binary decode `unpack` succeeds (it has no lower bound on the
iteration count). -/
theorem C3_counterexample :
    beU32 [1, 0, 0, 0, 1, 0, 0, 0, 0, 0, 0, 0, 1, 171, 205] 5 = 0 ∧
    (zeroData.unpack [1, 0, 0, 0, 1, 0, 0, 0, 0, 0, 0, 0, 1, 171, 205]).2 = none := by
  decide

/-- C3 (amended): with the version and prf checks passed, the high-level
decode `UnmarshalBinary` returns Parameter exactly when the decoded
iteration count is 0 or above 100000 or the decoded salt length is 0 or
above 64 (so every value in [1,100000] x [1,64] passes); the low-level
`unpack` returns Parameter exactly when the iteration count is above 100000
or it is within bounds and the salt length is above 64 — values of 0 pass
its checks. -/
theorem C3_parameter_check :
    (∀ (pd : PWHash) (a : List Nat),
      hdrLength ≤ a.length → a.getD 0 0 = v3 → beU32 a 1 = prfSHA256 →
      ((pd.unmarshalBinary a).2 = some .parameter ↔
        (beU32 a 5 < 1 ∨ 100000 < beU32 a 5) ∨
        (beU32 a 9 < 1 ∨ 64 < beU32 a 9))) ∧
    (∀ (d : PWDataV3) (a : List Nat),
      hdrLength ≤ a.length → a.getD 0 0 = v3 → beU32 a 1 = prfSHA256 →
      ((d.unpack a).2 = some .parameter ↔
        100000 < beU32 a 5 ∨ 64 < beU32 a 9)) := by
  constructor
  · intro pd a hlen hver hprf
    unfold PWHash.unmarshalBinary
    simp only [hdrLength, v3, prfSHA256, sha256Size] at *
    rw [if_neg (by omega), if_neg (by omega), if_neg (by omega)]
    split_ifs with hi hs hc <;> simp_all
  · intro d a hlen hver hprf
    unfold PWDataV3.unpack
    simp only [hdrLength, v3, prfSHA256, sha256Size] at *
    rw [if_neg (by omega), if_neg (by omega), if_neg (by omega)]
    split_ifs with hi hs hc <;> simp_all

/-- C3 witness: the amended theorem instantiated on a concrete iteration
count 0 input: the high-level decoder reports Parameter, the low-level one
does not. -/
theorem C3_parameter_check_witness :
    (zeroHash.unmarshalBinary [1, 0, 0, 0, 1, 0, 0, 0, 0, 0, 0, 0, 1, 171, 205]).2
      = some .parameter ∧
    (zeroData.unpack [1, 0, 0, 0, 1, 0, 0, 0, 0, 0, 0, 0, 1, 171, 205]).2
      ≠ some .parameter := by
  constructor
  · exact (C3_parameter_check.1 zeroHash
      [1, 0, 0, 0, 1, 0, 0, 0, 0, 0, 0, 0, 1, 171, 205]
      (by decide) (by decide) (by decide)).mpr (by decide)
  · intro hcontra
    have := (C3_parameter_check.2 zeroData
      [1, 0, 0, 0, 1, 0, 0, 0, 0, 0, 0, 0, 1, 171, 205]
      (by decide) (by decide) (by decide)).mp hcontra
    exact absurd this (by decide)

/-! ### Claim C4 -/

/-- C4 counterexample: decoding a 13-byte input with version byte 2 into a
previously valid record fails (with the Version error), yet the record is
changed by the call — `unpack` assigns the version field before checking
it, so the decode is not atomic. -/
theorem C4_counterexample :
    ((sampleData.unpack [2, 0, 0, 0, 0, 0, 0, 0, 0, 0, 0, 0, 0]).2).isSome ∧
    (sampleData.unpack [2, 0, 0, 0, 0, 0, 0, 0, 0, 0, 0, 0, 0]).1 ≠ sampleData := by
  decide

/-- C4 (amended): the high-level decode `UnmarshalBinary` is atomic — on any
error the receiver is unchanged in all five fields; the low-level `unpack`
is not — it may overwrite version, prf and iterations before a check fails —
but even it leaves the salt and subkey fields unchanged on every error
path. -/
theorem C4_decode_atomicity :
    (∀ (pd : PWHash) (a : List Nat) (e : GoErr),
      (pd.unmarshalBinary a).2 = some e → (pd.unmarshalBinary a).1 = pd) ∧
    (∀ (d : PWDataV3) (a : List Nat) (e : GoErr),
      (d.unpack a).2 = some e →
        (d.unpack a).1.salt = d.salt ∧ (d.unpack a).1.hash = d.hash) := by
  constructor
  · intro pd a e h
    simp only [PWHash.unmarshalBinary] at h ⊢
    split_ifs at h ⊢ <;> simp_all
  · intro d a e h
    simp only [PWDataV3.unpack] at h ⊢
    split_ifs at h ⊢ <;> simp_all

/-- C4 witness: atomicity applied at a concrete failing decode on each
decoder. -/
theorem C4_decode_atomicity_witness :
    (sampleHash.unmarshalBinary [2]).1 = sampleHash ∧
    (sampleData.unpack [2, 0, 0, 0, 0, 0, 0, 0, 0, 0, 0, 0, 0]).1.salt
        = sampleData.salt ∧
    (sampleData.unpack [2, 0, 0, 0, 0, 0, 0, 0, 0, 0, 0, 0, 0]).1.hash
        = sampleData.hash := by
  refine ⟨C4_decode_atomicity.1 sampleHash [2] .corrupt (by decide), ?_⟩
  exact C4_decode_atomicity.2 sampleData
    [2, 0, 0, 0, 0, 0, 0, 0, 0, 0, 0, 0, 0] .version (by decide)

/-! ### Claim C5 -/

/-- C5: for every record and candidate password, password verification
returns true exactly when the derived key — the PBKDF2-HMAC-SHA256 black box
applied to the password with the record's own salt and iteration count — is
byte-for-byte equal to the stored subkey.  Holds for both `PWHash.Verify`
and `PWDataV3.VerifyPassword`. -/
theorem C5_verify_iff_derived_key_eq :
    (∀ (hashPW : String → List Nat → Int → List Nat) (pd : PWHash) (pw : String),
      pd.verify hashPW pw = true ↔ hashPW pw pd.salt (pd.iter : Int) = pd.hash) ∧
    (∀ (hashPW : String → List Nat → Int → List Nat) (d : PWDataV3) (pw : String),
      d.verifyPassword hashPW pw = true ↔ hashPW pw d.salt (d.iter : Int) = d.hash) := by
  constructor
  · intro hPW pd pw
    unfold PWHash.verify
    rw [decide_eq_true_eq, constantTimeCompare_eq_one_iff]
    exact eq_comm
  · intro hPW d pw
    unfold PWDataV3.verifyPassword
    rw [decide_eq_true_eq, constantTimeCompare_eq_one_iff]
    exact eq_comm

/-! ### Claim C6 -/

/-- C6: when decoding the stored text fails, `VerifyHash` (with a working
random source, so the internal dummy construction does not panic — the panic
case is claim C10) performs the dummy derive-and-compare and returns `false`
paired with the decode error; when decoding succeeds yielding record `r`, it
returns exactly `VerifyPassword r pw` paired with no error, for any state of
the random source. -/
theorem C6_verifyHash_decode_outcomes :
    ∀ (hashPW : String → List Nat → Int → List Nat)
      (b64 : String → Except String (List Nat)) (rb : List Nat) (t pw : String),
      (∀ e, fromBase64 b64 t = .error e →
        VerifyHash hashPW b64 (.ok rb) t pw = some (false, some e)) ∧
      (∀ r, fromBase64 b64 t = .ok r → ∀ rand,
        VerifyHash hashPW b64 rand t pw
          = some (r.verifyPassword hashPW pw, none)) := by
  intro hPW b64 rb t pw
  constructor
  · intro e he
    unfold VerifyHash
    rw [he]
    unfold Must NewFromPassword
    have hself : constantTimeCompare (hPW "" rb (DefaultIter : Nat))
        (hPW "" rb (DefaultIter : Nat)) = 1 :=
      (constantTimeCompare_eq_one_iff _ _).mpr rfl
    simp [hself]
  · intro r hr rand
    unfold VerifyHash
    rw [hr]
    rfl

/-- C6 witness: the outcome theorem instantiated with a concrete failing
base64 decoder and with a concrete succeeding one. -/
theorem C6_verifyHash_decode_outcomes_witness :
    VerifyHash (fun _ _ _ => [0]) (fun _ => .error "bad") (.ok []) "t" "pw"
      = some (false, some (.wrapped "pw data: bad")) ∧
    VerifyHash (fun _ _ _ => [0]) (fun _ => .ok sampleData.pack) (.ok []) "t" "pw"
      = some (sampleData.verifyPassword (fun _ _ _ => [0]) "pw", none) := by
  constructor
  · exact (C6_verifyHash_decode_outcomes (fun _ _ _ => [0]) (fun _ => .error "bad")
      [] "t" "pw").1 (.wrapped "pw data: bad") rfl
  · exact (C6_verifyHash_decode_outcomes (fun _ _ _ => [0])
      (fun _ => .ok sampleData.pack) [] "t" "pw").2 sampleData rfl (.ok [])

/-! ### Claim C7 -/

/-- C7: text decoding first base64-decodes.  If base64 decoding fails, both
text decoders return a wrapped error carrying the underlying base64
diagnostic (and, never reaching the binary decode, leave the receiver
unchanged / return no record); if base64 decoding succeeds, the result is
exactly the binary decode of the decoded bytes.  Stated for
`PWHash.UnmarshalText` and for `fromBase64`. -/
theorem C7_text_decode_via_base64 :
    ∀ (b64 : String → Except String (List Nat)) (t : String),
      (∀ emsg, b64 t = .error emsg →
        (∀ (pd : PWHash), pd.unmarshalText b64 t
            = (pd, some (.wrapped ("password encoding: " ++ emsg)))) ∧
        fromBase64 b64 t = .error (.wrapped ("pw data: " ++ emsg))) ∧
      (∀ bytes, b64 t = .ok bytes →
        (∀ (pd : PWHash), pd.unmarshalText b64 t = pd.unmarshalBinary bytes) ∧
        (∀ r, fromBase64 b64 t = .ok r ↔
          (PWDataV3.unpack zeroData bytes).2 = none ∧
          (PWDataV3.unpack zeroData bytes).1 = r) ∧
        (∀ e, fromBase64 b64 t = .error e ↔
          (PWDataV3.unpack zeroData bytes).2 = some e)) := by
  intro b64 t
  constructor
  · intro emsg he
    constructor
    · intro pd
      unfold PWHash.unmarshalText
      rw [he]
    · unfold fromBase64
      rw [he]
  · intro bytes hb
    refine ⟨fun pd => ?_, fun r => ?_, fun e => ?_⟩
    · unfold PWHash.unmarshalText
      rw [hb]
    · unfold fromBase64
      rw [hb]
      rcases hu : PWDataV3.unpack zeroData bytes with ⟨p, err⟩
      cases err <;> simp_all
    · unfold fromBase64
      rw [hb]
      rcases hu : PWDataV3.unpack zeroData bytes with ⟨p, err⟩
      cases err <;> simp_all

/-- C7 witness: the text-layer theorem instantiated with a concrete failing
base64 decoder and a concrete succeeding one. -/
theorem C7_text_decode_via_base64_witness :
    zeroHash.unmarshalText (fun _ => .error "bent") "t"
      = (zeroHash, some (.wrapped "password encoding: bent")) ∧
    fromBase64 (fun _ => .error "bent") "t" = .error (.wrapped "pw data: bent") ∧
    zeroHash.unmarshalText (fun _ => .ok sampleHash.marshalBinary) "t"
      = zeroHash.unmarshalBinary sampleHash.marshalBinary ∧
    fromBase64 (fun _ => .ok sampleData.pack) "t" = .ok sampleData := by
  refine ⟨?_, ?_, ?_, ?_⟩
  · exact ((C7_text_decode_via_base64 (fun _ => .error "bent") "t").1 "bent" rfl).1
      zeroHash
  · exact ((C7_text_decode_via_base64 (fun _ => .error "bent") "t").1 "bent" rfl).2
  · exact ((C7_text_decode_via_base64 (fun _ => .ok sampleHash.marshalBinary)
      "t").2 sampleHash.marshalBinary rfl).1 zeroHash
  · exact (((C7_text_decode_via_base64 (fun _ => .ok sampleData.pack)
      "t").2 sampleData.pack rfl).2.1 sampleData).mpr (by decide)

/-! ### Claim C8 -/

/-- C8: for every valid record, the binary encoding (a total function — the
Go `MarshalBinary` returns an always-nil error) is exactly
13 + len(salt) + 32 bytes: the version byte at offset 0, prf big-endian at
offsets 1-4, iterations big-endian at offsets 5-8, the salt length
big-endian at offsets 9-12, the salt from offset 13, and the 32 subkey
bytes immediately after the salt.  Holds for `MarshalBinary` and `pack`. -/
theorem C8_encode_layout :
    (∀ r : PWHash, r.valid →
      r.marshalBinary.length = 13 + r.salt.length + 32 ∧
      r.marshalBinary.getD 0 0 = r.ver ∧
      beU32 r.marshalBinary 1 = r.prf ∧
      beU32 r.marshalBinary 5 = r.iter ∧
      beU32 r.marshalBinary 9 = r.salt.length ∧
      (r.marshalBinary.drop 13).take r.salt.length = r.salt ∧
      r.marshalBinary.drop (13 + r.salt.length) = r.hash ∧
      r.hash.length = 32) ∧
    (∀ r : PWDataV3, r.valid →
      r.pack.length = 13 + r.salt.length + 32 ∧
      r.pack.getD 0 0 = r.ver ∧
      beU32 r.pack 1 = r.prf ∧
      beU32 r.pack 5 = r.iter ∧
      beU32 r.pack 9 = r.salt.length ∧
      (r.pack.drop 13).take r.salt.length = r.salt ∧
      r.pack.drop (13 + r.salt.length) = r.hash ∧
      r.hash.length = 32) := by
  constructor
  · rintro ⟨rv, rp, ri, rs, rh⟩ ⟨hv, hp, hi1, hi2, hs1, hs2, hh⟩
    simp only [v3, prfSHA256, sha256Size] at hv hp hh
    dsimp only at hv hp hi1 hi2 hs1 hs2 hh
    subst hv
    subst hp
    unfold PWHash.marshalBinary
    dsimp only
    rw [marshal_length, marshal_getD0, marshal_beU32_1, marshal_beU32_5,
      marshal_beU32_9, marshal_drop13]
    refine ⟨by simp only [hdrLength]; omega, rfl, by norm_num, by omega, by omega,
      List.take_left rs rh, ?_, hh⟩
    rw [← List.drop_drop, marshal_drop13]
    exact List.drop_left rs rh
  · rintro ⟨rv, rp, ri, rs, rh⟩ ⟨hv, hp, hi1, hi2, hs1, hs2, hh⟩
    simp only [v3, prfSHA256, sha256Size] at hv hp hh
    dsimp only at hv hp hi1 hi2 hs1 hs2 hh
    subst hv
    subst hp
    unfold PWDataV3.pack
    dsimp only
    rw [marshal_length, marshal_getD0, marshal_beU32_1, marshal_beU32_5,
      marshal_beU32_9, marshal_drop13]
    refine ⟨by simp only [hdrLength]; omega, rfl, by norm_num, by omega, by omega,
      List.take_left rs rh, ?_, hh⟩
    rw [← List.drop_drop, marshal_drop13]
    exact List.drop_left rs rh

/-- C8 witness: the layout theorem applied to the concrete valid records. -/
theorem C8_encode_layout_witness :
    (sampleHash.marshalBinary.length = 13 + sampleHash.salt.length + 32 ∧
      beU32 sampleHash.marshalBinary 9 = sampleHash.salt.length) ∧
    (sampleData.pack.length = 13 + sampleData.salt.length + 32 ∧
      beU32 sampleData.pack 9 = sampleData.salt.length) := by
  constructor
  · have h := C8_encode_layout.1 sampleHash (by decide)
    exact ⟨h.1, h.2.2.2.2.1⟩
  · have h := C8_encode_layout.2 sampleData (by decide)
    exact ⟨h.1, h.2.2.2.2.1⟩

/-! ### Claim C9 -/

/-- C9 counterexample: the Go constructors take the iteration count as a
(64-bit) `int` and truncate it to `uint32` without validation.  For the
iteration count 2^32 + 5 = 4294967301 — outside [1,100000] — construction
succeeds, the stored count is 5, and decoding the record's encoding
*succeeds* rather than failing with the Parameter error as the claim
requires. -/
theorem C9_counterexample :
    (100000 : Int) < 4294967301 ∧
    PWHash.new (fun _ _ _ => List.replicate 32 0) (.ok (List.replicate 16 0))
        "" 4294967301
      = .ok { ver := 1, prf := 1, iter := 5, salt := List.replicate 16 0,
              hash := List.replicate 32 0 } ∧
    (zeroHash.unmarshalBinary
      ({ ver := 1, prf := 1, iter := 5, salt := List.replicate 16 0,
         hash := List.replicate 32 0 } : PWHash).marshalBinary).2 = none := by
  refine ⟨by decide, rfl, by decide⟩

/-- C9 (amended): the constructors perform no range validation; for every
password and every iteration count whose uint32 truncation is outside
[1,100000] (in particular every count in [0, 2^32) outside that range, such
as 0), construction succeeds given a working random source, yields a record
with version 1 and prf 1, and the high-level binary decode rejects that
record's encoding with the Parameter error.  Holds for both password
constructors. -/
theorem C9_constructor_skips_range_validation :
    (∀ (hashPW : String → List Nat → Int → List Nat) (rb : List Nat)
        (pw : String) (iter : Int) (pd : PWHash),
      (iter % 4294967296).toNat < 1 ∨ 100000 < (iter % 4294967296).toNat →
      ∃ r, PWHash.new hashPW (.ok rb) pw iter = .ok r ∧
        r.ver = v3 ∧ r.prf = prfSHA256 ∧
        (pd.unmarshalBinary r.marshalBinary).2 = some .parameter) ∧
    (∀ (hashPW : String → List Nat → Int → List Nat) (rb : List Nat)
        (pw : String) (iter : Int) (pd : PWHash),
      (iter % 4294967296).toNat < 1 ∨ 100000 < (iter % 4294967296).toNat →
      ∃ r, NewFromPassword hashPW (.ok rb) pw iter = .ok r ∧
        r.ver = v3 ∧ r.prf = prfSHA256 ∧
        (pd.unmarshalBinary r.pack).2 = some .parameter) := by
  have hmodlt : ∀ iter : Int, (iter % 4294967296).toNat < 4294967296 := by
    intro iter
    omega
  constructor
  · intro hPW rb pw iter pd hbad
    refine ⟨_, rfl, rfl, rfl, ?_⟩
    unfold PWHash.unmarshalBinary PWHash.marshalBinary
    dsimp only
    simp only [marshal_length, marshal_getD0, marshal_beU32_1, marshal_beU32_5,
      hdrLength, v3, prfSHA256]
    rw [if_neg (by omega), if_neg (by omega), if_neg (by norm_num),
      if_pos (by have := hmodlt iter; omega)]
  · intro hPW rb pw iter pd hbad
    refine ⟨_, rfl, rfl, rfl, ?_⟩
    unfold PWHash.unmarshalBinary PWDataV3.pack
    dsimp only
    simp only [marshal_length, marshal_getD0, marshal_beU32_1, marshal_beU32_5,
      hdrLength, v3, prfSHA256]
    rw [if_neg (by omega), if_neg (by omega), if_neg (by norm_num),
      if_pos (by have := hmodlt iter; omega)]

/-- C9 witness: the amended theorem at iteration count 0 (its truncation is
0, below the accepted range) for both constructors. -/
theorem C9_constructor_skips_range_validation_witness :
    (∃ r, PWHash.new (fun _ _ _ => List.replicate 32 0)
        (.ok (List.replicate 16 0)) "" 0 = .ok r ∧
      r.ver = v3 ∧ r.prf = prfSHA256 ∧
      (zeroHash.unmarshalBinary r.marshalBinary).2 = some .parameter) ∧
    (∃ r, NewFromPassword (fun _ _ _ => List.replicate 32 0)
        (.ok (List.replicate 16 0)) "" 0 = .ok r ∧
      r.ver = v3 ∧ r.prf = prfSHA256 ∧
      (zeroHash.unmarshalBinary r.pack).2 = some .parameter) :=
  ⟨C9_constructor_skips_range_validation.1 (fun _ _ _ => List.replicate 32 0)
      (List.replicate 16 0) "" 0 zeroHash (by decide),
   C9_constructor_skips_range_validation.2 (fun _ _ _ => List.replicate 32 0)
      (List.replicate 16 0) "" 0 zeroHash (by decide)⟩

/-! ### Claim C10 -/

/-- C10: in the decode-failure branch, `VerifyHash` builds a fresh credential
through `Must (NewFromPassword ...)`; when the random source fails to supply
bytes, `Must` panics (modelled as `none`), so `VerifyHash` on a malformed
encoded value panics instead of returning any `(false, error)` result. -/
theorem C10_verifyHash_panics_on_rand_failure :
    ∀ (hashPW : String → List Nat → Int → List Nat)
      (b64 : String → Except String (List Nat)) (t pw : String)
      (e : GoErr) (msg : String),
      fromBase64 b64 t = .error e →
      VerifyHash hashPW b64 (.error msg) t pw = none ∧
      ∀ out : Bool × Option GoErr,
        VerifyHash hashPW b64 (.error msg) t pw ≠ some out := by
  intro hPW b64 t pw e msg he
  have hnone : VerifyHash hPW b64 (.error msg) t pw = none := by
    unfold VerifyHash
    rw [he]
    rfl
  exact ⟨hnone, fun out hcontra => by rw [hnone] at hcontra; exact Option.noConfusion hcontra⟩

/-- C10 witness: a concrete malformed value and failing random source make
`VerifyHash` panic. -/
theorem C10_verifyHash_panics_on_rand_failure_witness :
    VerifyHash (fun _ _ _ => [0]) (fun _ => .error "z") (.error "boom") "x" "pw"
      = none :=
  (C10_verifyHash_panics_on_rand_failure (fun _ _ _ => [0]) (fun _ => .error "z")
    "x" "pw" (.wrapped "pw data: z") "boom" rfl).1

end Pwdatav3
